import Mathlib

/-!
Shallow embedding of the span storage engine (src/store.rs) of
tracing-concat: a slab of independently lockable slots, a lock-free
free list threaded through empty slots, per-span reference counts,
a per-thread span stack with duplicate detection, and the context
visitor that reconstructs the root-to-current parent chain.

The embedding is sequential: atomics become plain fields, and where a
claim concerns racing threads the interference is passed in explicitly
as a list of store transformations applied between an atomic load and
the corresponding compare-and-swap. Machine integers (u64/usize) are
Nat with explicit wrap modulo USIZE. Field formatting is modelled by
passing in the rendered string of each format_fields call, which the
code appends to the slot's field buffer.
-/

namespace TracingConcat

/-- Number of values of the machine word (u64/usize): atomic counters wrap modulo this. -/
def USIZE : Nat := 2 ^ 64

/-- idx_to_id in store.rs: Id::from_u64(idx as u64 + 1). -/
def idx_to_id (idx : Nat) : Nat := idx + 1

/-- id_to_idx in store.rs: id.into_u64() as usize - 1 in wrapping u64
arithmetic. Span ids are u64 values (below USIZE); id 0 wraps to USIZE - 1,
which is out of bounds for any in-memory slab. -/
def id_to_idx (id : Nat) : Nat := if id = 0 then USIZE - 1 else id - 1

/-- struct Data in store.rs: parent id, static metadata (abstracted as a
type parameter), the atomic ref_count, and the is_empty flag, which the
spec calls has_non_empty_fields. -/
structure Data (μ : Type) where
  parent : Option Nat
  metadata : μ
  ref_count : Nat
  is_empty : Bool
deriving DecidableEq

/-- enum State in store.rs: a slot is Full with span data or Empty with the
index of the next free slot. -/
inductive State (μ : Type) where
  | Full (data : Data μ)
  | Empty (next : Nat)
deriving DecidableEq

/-- struct Slot in store.rs: the formatted field buffer and the slot state. -/
structure Slot (μ : Type) where
  fields : String
  span : State μ
deriving DecidableEq

/-- struct Store and struct Slab in store.rs, merged: the slab vector and the
atomic free-list head (field next). -/
structure Store (μ : Type) where
  slab : List (Slot μ)
  next : Nat
deriving DecidableEq

/-- An entry of the per-thread span stack: struct ContextId in store.rs. -/
structure ContextId where
  id : Nat
  duplicate : Bool
deriving DecidableEq

/-- struct SpanStack in store.rs. The Rust Vec pushes and pops at the end;
here the list head is the top of the stack. The HashSet of ids is modelled
extensionally as a list where insertion of an absent element is cons and
removal is List.erase. -/
structure SpanStack where
  stack : List ContextId
  ids : List Nat
deriving DecidableEq

/-- SpanStack::push in store.rs. -/
def SpanStack.push (s : SpanStack) (id : Nat) : SpanStack :=
  let duplicate := s.ids.contains id
  { stack := ⟨id, duplicate⟩ :: s.stack
    ids := if duplicate then s.ids else id :: s.ids }

/-- SpanStack::pop in store.rs: pops only when the top entry matches the
expected id; a genuine (non-duplicate) pop also removes the id from the set. -/
def SpanStack.pop (s : SpanStack) (expected : Nat) : Option Nat × SpanStack :=
  match s.stack with
  | [] => (none, s)
  | c :: rest =>
    if c.id = expected then
      (some c.id, { stack := rest, ids := if c.duplicate then s.ids else s.ids.erase c.id })
    else (none, s)

/-- SpanStack::current in store.rs: the topmost non-duplicate entry. -/
def SpanStack.current (s : SpanStack) : Option Nat :=
  (s.stack.find? fun c => !c.duplicate).map ContextId.id

/-- Slot::next in store.rs: the next free index when the slot is empty. -/
def Slot.nextFree (s : Slot μ) : Option Nat :=
  match s.span with
  | .Empty next => some next
  | .Full _ => none

/-- The parent id held by a slot when it is full. -/
def Slot.parentId (s : Slot μ) : Option Nat :=
  match s.span with
  | .Full data => data.parent
  | .Empty _ => none

/-- Slot::new in store.rs: formats the attributes into a fresh buffer
(rendered is the output of this format_fields call) and, when the buffer
is empty, sets the is_empty flag to false. -/
def Slot.new (data : Data μ) (rendered : String) : Slot μ :=
  let fields := rendered
  let data := if fields.isEmpty then { data with is_empty := false } else data
  { fields := fields, span := .Full data }

/-- Slot::fill in store.rs: appends the formatted attributes to the retained
buffer, sets the flag the same way, stores the data and returns the next
free index that was in the slot. Filling a full slot is unreachable! in the
source, modelled as none. -/
def Slot.fill (s : Slot μ) (data : Data μ) (rendered : String) : Option (Slot μ × Nat) :=
  let fields := s.fields ++ rendered
  let data := if fields.isEmpty then { data with is_empty := false } else data
  match s.span with
  | .Empty next => some ({ fields := fields, span := .Full data }, next)
  | .Full _ => none

/-- Slot::record in store.rs: a no-op on an empty slot; otherwise appends the
formatted fields to the buffer and sets is_empty to false when the buffer is
empty afterwards. -/
def Slot.record (s : Slot μ) (rendered : String) : Slot μ :=
  match s.span with
  | .Empty _ => s
  | .Full data =>
    let buf := s.fields ++ rendered
    let data := if buf.isEmpty then { data with is_empty := false } else data
    { fields := buf, span := .Full data }

/-- Slot::drop_ref in store.rs: fetch_sub(1) on the counter (wrapping u64)
returning whether the old value was 1; false on an empty slot. -/
def Slot.drop_ref (s : Slot μ) : Slot μ × Bool :=
  match s.span with
  | .Full data =>
    ({ s with span := .Full { data with ref_count := (data.ref_count + (USIZE - 1)) % USIZE } },
     data.ref_count == 1)
  | .Empty _ => (s, false)

/-- Slot::clone_ref in store.rs: fetch_add(1) on the counter; cloning a ref
to an empty slot is unreachable! (a panic), modelled as none. -/
def Slot.clone_ref (s : Slot μ) : Option (Slot μ) :=
  match s.span with
  | .Full data =>
    some { s with span := .Full { data with ref_count := (data.ref_count + 1) % USIZE } }
  | .Empty _ => none

/-- Replace the slot at an index (the slab vector is addressed in place). -/
def Store.setSlot (st : Store μ) (idx : Nat) (s : Slot μ) : Store μ :=
  { st with slab := st.slab.set idx s }

/-- Slab::read_slot in store.rs: the slot at idx when it exists and is full. -/
def Store.read_slot (st : Store μ) (idx : Nat) : Option (Slot μ) :=
  match st.slab[idx]? with
  | some slot =>
    match slot.span with
    | .Empty _ => none
    | .Full _ => some slot
  | none => none

/-- Store::get in store.rs: read handle on a full slot, none when the id is
out of bounds or the slot is empty. -/
def Store.get (st : Store μ) (id : Nat) : Option (Slot μ) :=
  st.read_slot (id_to_idx id)

/-- The parent link of a live span, resolved through the store. -/
def Store.parentOf (st : Store μ) (id : Nat) : Option Nat :=
  (st.get id).bind Slot.parentId

/-- Clear the field buffer of the slot at idx, keeping its state (the string
keeps its allocation in the source; only the contents matter here). -/
def Store.clearFields (st : Store μ) (idx : Nat) : Store μ :=
  match st.slab[idx]? with
  | some s => st.setSlot idx { s with fields := "" }
  | none => st

/-- One iteration of Slab::remove up to (not including) the CAS: load the
free-list head, and if the slot is full, replace its state with
Empty(head), yielding the head snapshot, the updated store and the
extracted data. none when the slot is already empty (the early-return arm
restores the state, leaving the store unchanged). -/
def Store.removeBegin (st : Store μ) (idx : Nat) : Option (Nat × Store μ × Data μ) :=
  let head := st.next
  match st.slab[idx]? with
  | some slot =>
    match slot.span with
    | .Full data => some (head, st.setSlot idx { slot with span := .Empty head }, data)
    | .Empty _ => none
  | none => none

/-- Slab::remove in store.rs, with racing threads made explicit: the k-th
element of interf is the combined effect of other threads between this
iteration's head load and its CAS. The CAS succeeds exactly when the head
is still the loaded snapshot; on success the head becomes idx and the field
buffer is cleared; on failure the loop runs again. Once interf is exhausted
no further interference occurs, so the next CAS succeeds. -/
def Store.removeLoop (idx : Nat) :
    List (Store μ → Store μ) → Store μ → Store μ × Option (Data μ)
  | [], st =>
    match st.removeBegin idx with
    | none => (st, none)
    | some (_, st1, data) => (Store.clearFields { st1 with next := idx } idx, some data)
  | g :: rest, st =>
    match st.removeBegin idx with
    | none => (st, none)
    | some (head, st1, data) =>
      let st2 := g st1
      if st2.next = head then (Store.clearFields { st2 with next := idx } idx, some data)
      else Store.removeLoop idx rest st2

/-- Store::drop_span in store.rs (sequential, no interference): decrement
the ref count; when the old count was 1, issue the acquire fence and remove
the slot, returning true. Out of bounds returns false (debug_panic is
compiled out in release builds). -/
def Store.drop_span (st : Store μ) (id : Nat) : Store μ × Bool :=
  let idx := id_to_idx id
  match st.slab[idx]? with
  | none => (st, false)
  | some slot =>
    let r := slot.drop_ref
    let st1 := st.setSlot idx r.1
    if r.2 then ((Store.removeLoop idx [] st1).1, true)
    else (st1, false)

/-- Store::clone_span in store.rs: increment the ref count of the slot; a
missing slot is a debug_panic (release: no-op); an empty slot panics
(unreachable!), modelled as none. -/
def Store.clone_span (st : Store μ) (id : Nat) : Option (Store μ) :=
  let idx := id_to_idx id
  match st.slab[idx]? with
  | none => some st
  | some slot => (slot.clone_ref).map (st.setSlot idx)

/-- Store::push in store.rs: clone a reference to the span (on every call,
duplicate entry or not), then push it on the thread stack. -/
def Store.push (st : Store μ) (stk : SpanStack) (id : Nat) : Option (Store μ × SpanStack) :=
  (st.clone_span id).map fun st1 => (st1, stk.push id)

/-- Store::pop in store.rs: pop the thread stack when the top matches, and
whenever an id was popped (duplicate or genuine) drop one reference to it. -/
def Store.pop (st : Store μ) (stk : SpanStack) (expected : Nat) :
    Store μ × SpanStack × Bool :=
  let r := stk.pop expected
  match r.1 with
  | some id =>
    let d := st.drop_span id
    (d.1, r.2, d.2)
  | none => (st, r.2, false)

/-- The fast path of Store::new_span in store.rs (head within bounds, slot
lock acquired, slot empty, CAS succeeds): pop the free head, fill the slot,
return the new id. none when the fast path is not available. -/
def Store.newSpanFast (st : Store μ) (data : Data μ) (rendered : String) :
    Option (Store μ × Nat) :=
  let head := st.next
  if head < st.slab.length then
    match st.slab[head]? with
    | some slot =>
      match slot.fill data rendered with
      | some (slot1, nxt) =>
        some ({ st with slab := st.slab.set head slot1, next := nxt }, idx_to_id head)
      | none => none
    | none => none
  else none

/-- The indices reachable from the free-list head by following the
Empty(next) chain, with fuel the slab length (the chain is acyclic in any
reachable store; fuel only guarantees termination). -/
def Store.freeWalk (st : Store μ) : Nat → Nat → List Nat
  | 0, _ => []
  | fuel + 1, i =>
    match st.slab[i]? with
    | some slot =>
      match slot.span with
      | .Empty nxt => i :: st.freeWalk fuel nxt
      | .Full _ => []
    | none => []

/-- The free list as reachable from the head. -/
def Store.freeIndices (st : Store μ) : List Nat :=
  st.freeWalk st.slab.length st.next

/-- Drop for Data in store.rs: when the span has a parent, release exactly
one reference to it through the process-wide dispatcher hook
(subscriber.try_close), passed in here as the backend function; its result
is discarded (let _ = ...). -/
def Data.finalize (data : Data μ) (backend : Nat → Store μ → Store μ × Bool)
    (st : Store μ) : Store μ :=
  match data.parent with
  | some p => (backend p st).1
  | none => st

/-- Store::drop_span composed with the Drop impl of the returned Data: the
extracted span data is dropped by the caller, which releases the parent
reference through the dispatcher-provided backend. -/
def Store.drop_span_via (backend : Nat → Store μ → Store μ × Bool)
    (st : Store μ) (id : Nat) : Store μ × Bool :=
  let idx := id_to_idx id
  match st.slab[idx]? with
  | none => (st, false)
  | some slot =>
    let r := slot.drop_ref
    let st1 := st.setSlot idx r.1
    if r.2 then
      match Store.removeLoop idx [] st1 with
      | (st2, some data) => (data.finalize backend st2, true)
      | (st2, none) => (st2, true)
    else (st1, false)

/-- Span::with_parent in store.rs. The visitor f receives the span id and
the slot read handle; its FnMut state is threaded as sigma, and an error
short-circuits (the question-mark operator). The recursion visits the
parent chain before calling f on the current span; a parent equal to
last_id or an unresolvable parent (debug_panic, compiled out in release)
skips the recursion. fuel bounds the recursion depth, which is unbounded
in the source; the theorems supply enough fuel for the whole chain. -/
def Store.withParent (st : Store μ) (f : Nat → Slot μ → σ → Except ε σ) :
    Nat → Nat → Option Nat → Slot μ → σ → Except ε σ
  | 0, myId, _, sp, acc => f myId sp acc
  | fuel + 1, myId, lastId, sp, acc =>
    match sp.parentId with
    | some p =>
      if some p ≠ lastId then
        match st.get p with
        | some psp =>
          match st.withParent f fuel p (some myId) psp acc with
          | .ok acc2 => f myId sp acc2
          | .error e => .error e
        | none => f myId sp acc
      else f myId sp acc
    | none => f myId sp acc

/-- Context::visit_spans in store.rs: nothing is visited when no span is
current on the thread (or when the current span is missing from the store,
a debug_panic compiled out in release). -/
def Store.visitSpans (st : Store μ) (stk : SpanStack) (f : Nat → Slot μ → σ → Except ε σ)
    (fuel : Nat) (acc : σ) : Except ε σ :=
  match stk.current with
  | none => .ok acc
  | some id =>
    match st.get id with
    | some sp => st.withParent f fuel id none sp acc
    | none => .ok acc

/-- The parent chain of a span as a list, innermost last, mirroring the
branching of with_parent (guard against last_id, unresolvable parent
treated as a root). -/
def Store.chainList (st : Store μ) : Nat → Nat → Option Nat → List Nat
  | 0, myId, _ => [myId]
  | fuel + 1, myId, lastId =>
    match st.get myId with
    | none => [myId]
    | some sp =>
      match sp.parentId with
      | some p =>
        if some p ≠ lastId then
          match st.get p with
          | some _ => st.chainList fuel p (some myId) ++ [myId]
          | none => [myId]
        else [myId]
      | none => [myId]

/-- Applying the visitor to a list of span ids in list order, resolving each
through the store and short-circuiting on the first error. -/
def Store.visitFold (st : Store μ) (f : Nat → Slot μ → σ → Except ε σ) :
    List Nat → σ → Except ε σ
  | [], acc => .ok acc
  | i :: rest, acc =>
    match st.get i with
    | some sp =>
      match f i sp acc with
      | .ok acc2 => st.visitFold f rest acc2
      | .error e => .error e
    | none => st.visitFold f rest acc

/-- Decidable check that the parent of every live span resolves to a live
span (one index). -/
def Store.resolvCheck (st : Store μ) (i : Nat) : Bool :=
  match st.get i with
  | some sp =>
    match sp.parentId with
    | some p => (st.get p).isSome
    | none => true
  | none => true

/-- Decidable check that the parent of every live span resolves to a live
span. Ids above the slab length never resolve, so checking the range
suffices. -/
def Store.resolvableOK (st : Store μ) : Bool :=
  (List.range (st.slab.length + 1)).all st.resolvCheck

/-- Decidable check that rank decreases across one parent link. -/
def Store.rankCheck (st : Store μ) (rank : Nat → Nat) (i : Nat) : Bool :=
  match st.get i with
  | some sp =>
    match sp.parentId with
    | some p => decide (rank p < rank i)
    | none => true
  | none => true

/-- Decidable check that rank strictly decreases along parent links: the
parent forest is acyclic with depth bounded by rank. -/
def Store.rankOK (st : Store μ) (rank : Nat → Nat) : Bool :=
  (List.range (st.slab.length + 1)).all (st.rankCheck rank)

/-- The boolean the spec calls has_non_empty_fields on a full slot (the
field named is_empty in the source). -/
def Slot.hasNonEmptyFields (s : Slot μ) : Bool :=
  match s.span with
  | .Full data => data.is_empty
  | .Empty _ => false

/-! ## Arithmetic and list helpers -/

theorem USIZE_eq : USIZE = 18446744073709551616 := by norm_num [USIZE]

/-- Wrapping fetch_sub(1): on a counter in machine range it is plain
subtraction. -/
theorem wrap_dec (n : Nat) (h1 : 1 ≤ n) (h2 : n < USIZE) :
    (n + (USIZE - 1)) % USIZE = n - 1 := by
  rw [USIZE_eq] at h2 ⊢
  omega

/-- Setting a list index to the value already there is the identity. -/
theorem set_self_of_getElem? (l : List α) (i : Nat) (x : α) (h : l[i]? = some x) :
    l.set i x = l := by
  induction l generalizing i with
  | nil => simp at h
  | cons a l ih =>
    cases i with
    | zero => simp_all
    | succ n =>
      simp only [List.getElem?_cons_succ] at h
      simp [ih n h]

/-! ## Store::get (claim C7) -/

/-- C7: for every identifier, get returns an empty result (the embedding is a
total function, so no panic) when the identifier is out of the slab's bounds
or when the addressed slot is Empty, and it returns the read handle exactly
when the slot is Full. -/
theorem get_not_found_spec {μ : Type} (st : Store μ) (id : Nat) :
    (st.slab[id_to_idx id]? = none → st.get id = none)
    ∧ (∀ flds nxt, st.slab[id_to_idx id]? = some ⟨flds, .Empty nxt⟩ → st.get id = none)
    ∧ (∀ flds data, st.slab[id_to_idx id]? = some ⟨flds, .Full data⟩ →
        st.get id = some ⟨flds, .Full data⟩)
    ∧ ((st.get id).isSome ↔ ∃ flds data, st.slab[id_to_idx id]? = some ⟨flds, .Full data⟩) := by
  refine ⟨?_, ?_, ?_, ?_⟩
  · intro h; simp [Store.get, Store.read_slot, h]
  · intro flds nxt h; simp [Store.get, Store.read_slot, h]
  · intro flds data h; simp [Store.get, Store.read_slot, h]
  · constructor
    · intro h
      unfold Store.get Store.read_slot at h
      cases hs : st.slab[id_to_idx id]? with
      | none => rw [hs] at h; simp at h
      | some slot =>
        rw [hs] at h
        cases slot with
        | mk flds sp =>
          cases sp with
          | Empty n => simp at h
          | Full data => exact ⟨flds, data, rfl⟩
    · rintro ⟨flds, data, h⟩
      simp [Store.get, Store.read_slot, h]

/-- Witness for C7 on a concrete store: id 2 addresses a full slot, id 1 an
empty slot, id 3 is out of bounds. -/
theorem get_not_found_spec_witness :
    Store.get ⟨[⟨"", .Empty 2⟩, ⟨"a", .Full ⟨none, 0, 1, true⟩⟩], 0⟩ (2 : Nat) =
      some ⟨"a", .Full ⟨none, (0 : Nat), 1, true⟩⟩
    ∧ Store.get ⟨[⟨"", .Empty 2⟩, ⟨"a", .Full ⟨none, (0 : Nat), 1, true⟩⟩], 0⟩ 1 = none
    ∧ Store.get ⟨[⟨"", .Empty 2⟩, ⟨"a", .Full ⟨none, (0 : Nat), 1, true⟩⟩], 0⟩ 3 = none := by
  refine ⟨(get_not_found_spec _ 2).2.2.1 "a" ⟨none, 0, 1, true⟩ (by decide),
          (get_not_found_spec _ 1).2.1 "" 2 (by decide),
          (get_not_found_spec _ 3).1 (by decide)⟩

/-! ## SpanStack duplicate transparency (claim C5) -/

/-- C5: with an identifier already entered (the push producing st), pushing
it again is a duplicate entry: popping the duplicate restores the stack and
its identifier set exactly to the pre-duplicate state st, popping once more
restores the original state, the duplicate push leaves the identifier set
unchanged, and current() evaluated between the duplicate push and its pop is
the same as before the duplicate push. -/
theorem duplicate_entry_transparency (base : SpanStack) (id : Nat) :
    ((base.push id).push id).pop id = (some id, base.push id)
    ∧ (base.push id).pop id = (some id, base)
    ∧ ((base.push id).push id).ids = (base.push id).ids
    ∧ ((base.push id).push id).current = (base.push id).current := by
  by_cases h : id ∈ base.ids <;>
    refine ⟨?_, ?_, ?_, ?_⟩ <;>
      simp [SpanStack.push, SpanStack.pop, SpanStack.current, h]

/-! ## drop_span helper lemmas (shared by several claims) -/

/-- drop_span on a full slot whose count is at least 2: pure decrement, no
removal. -/
theorem drop_span_full_dec {μ : Type} (st : Store μ) (id : Nat) (flds : String)
    (data : Data μ)
    (hs : st.slab[id_to_idx id]? = some ⟨flds, .Full data⟩)
    (h1 : 2 ≤ data.ref_count) (h2 : data.ref_count < USIZE) :
    st.drop_span id =
      (st.setSlot (id_to_idx id) ⟨flds, .Full { data with ref_count := data.ref_count - 1 }⟩,
       false) := by
  have hb : (data.ref_count == 1) = false := by
    rw [beq_eq_false_iff_ne]; omega
  have hw : (data.ref_count + (USIZE - 1)) % USIZE = data.ref_count - 1 :=
    wrap_dec _ (by omega) h2
  simp [Store.drop_span, hs, Slot.drop_ref, hb, hw]

/-- drop_span on a full slot whose count is exactly 1: the decrement reaches
zero, the slot transitions to Empty(old head) with a cleared buffer, and the
free-list head becomes the slot's index. -/
theorem drop_span_full_last {μ : Type} (st : Store μ) (id : Nat) (flds : String)
    (data : Data μ)
    (hs : st.slab[id_to_idx id]? = some ⟨flds, .Full data⟩)
    (h1 : data.ref_count = 1) :
    st.drop_span id =
      (⟨st.slab.set (id_to_idx id) ⟨"", .Empty st.next⟩, id_to_idx id⟩, true) := by
  have hlt : id_to_idx id < st.slab.length := by
    rcases List.getElem?_eq_some.mp hs with ⟨hl, _⟩
    exact hl
  have hset :
      (st.slab.set (id_to_idx id)
        ⟨flds, .Full { data with ref_count := (data.ref_count + (USIZE - 1)) % USIZE }⟩)[
        id_to_idx id]? =
      some ⟨flds, .Full { data with ref_count := (data.ref_count + (USIZE - 1)) % USIZE }⟩ :=
    List.getElem?_set_self (by simpa using hlt)
  have hb : (data.ref_count == 1) = true := by simp [h1]
  simp only [Store.drop_span, hs, Slot.drop_ref, hb, if_true]
  simp only [Store.removeLoop, Store.removeBegin, Store.setSlot, hset]
  have hset2 :
      (st.slab.set (id_to_idx id) ⟨flds, .Empty st.next⟩)[id_to_idx id]? =
      some ⟨flds, .Empty st.next⟩ :=
    List.getElem?_set_self (by simpa using hlt)
  simp only [Store.clearFields, Store.setSlot, List.set_set, hset2]

/-- drop_span on an empty slot: false, store unchanged. -/
theorem drop_span_empty {μ : Type} (st : Store μ) (id : Nat) (flds : String) (nxt : Nat)
    (hs : st.slab[id_to_idx id]? = some ⟨flds, .Empty nxt⟩) :
    st.drop_span id = (st, false) := by
  have : st.slab.set (id_to_idx id) ⟨flds, .Empty nxt⟩ = st.slab :=
    set_self_of_getElem? _ _ _ hs
  simp [Store.drop_span, hs, Slot.drop_ref, Store.setSlot, this]

/-- drop_span out of bounds: false, store unchanged. -/
theorem drop_span_oob {μ : Type} (st : Store μ) (id : Nat)
    (hs : st.slab[id_to_idx id]? = none) :
    st.drop_span id = (st, false) := by
  simp [Store.drop_span, hs]

/-! ## Claim C2: drop_span semantics -/

/-- C2: on a full slot drop_span decrements the reference count by one; it
transitions the slot to Empty (linking its index as the new free-list head,
the old head stored in the slot) and returns true exactly when the decrement
brings the count to zero (that is, when the old count was 1, and then the
removal happens in that single call); on an empty slot or an out-of-bounds
identifier it returns false and leaves the store unchanged. -/
theorem drop_span_spec :
    (∀ (μ : Type) (st : Store μ) (id : Nat) (flds : String) (data : Data μ),
      st.slab[id_to_idx id]? = some ⟨flds, .Full data⟩ →
      1 ≤ data.ref_count → data.ref_count < USIZE →
      ((2 ≤ data.ref_count →
        st.drop_span id =
          (st.setSlot (id_to_idx id)
            ⟨flds, .Full { data with ref_count := data.ref_count - 1 }⟩, false))
       ∧ (data.ref_count = 1 →
        st.drop_span id =
          (⟨st.slab.set (id_to_idx id) ⟨"", .Empty st.next⟩, id_to_idx id⟩, true))))
    ∧ (∀ (μ : Type) (st : Store μ) (id : Nat) (flds : String) (nxt : Nat),
        st.slab[id_to_idx id]? = some ⟨flds, .Empty nxt⟩ → st.drop_span id = (st, false))
    ∧ (∀ (μ : Type) (st : Store μ) (id : Nat),
        st.slab[id_to_idx id]? = none → st.drop_span id = (st, false)) := by
  refine ⟨?_, ?_, ?_⟩
  · intro μ st id flds data hs _ h2
    exact ⟨fun hge => drop_span_full_dec st id flds data hs hge h2,
           fun heq => drop_span_full_last st id flds data hs heq⟩
  · intro μ st id flds nxt hs
    exact drop_span_empty st id flds nxt hs
  · intro μ st id hs
    exact drop_span_oob st id hs

/-- Witness for C2 on a concrete store: dropping id 1 with count 2
decrements to 1; dropping id 2 with count 1 empties the slot and pushes
index 1 onto the free list. -/
theorem drop_span_spec_witness :
    Store.drop_span ⟨[⟨"a", .Full ⟨none, (0 : Nat), 2, true⟩⟩], 1⟩ 1 =
      (⟨[⟨"a", .Full ⟨none, 0, 1, true⟩⟩], 1⟩, false)
    ∧ Store.drop_span ⟨[⟨"r", .Full ⟨none, (7 : Nat), 3, true⟩⟩, ⟨"b", .Full ⟨some 1, 7, 1, true⟩⟩], 2⟩ 2 =
      (⟨[⟨"r", .Full ⟨none, 7, 3, true⟩⟩, ⟨"", .Empty 2⟩], 1⟩, true) := by
  constructor
  · have h := (drop_span_spec.1 Nat ⟨[⟨"a", .Full ⟨none, 0, 2, true⟩⟩], 1⟩ 1 "a"
      ⟨none, 0, 2, true⟩ (by decide) (by decide) (by decide)).1 (by decide)
    exact h
  · have h := (drop_span_spec.1 Nat
      ⟨[⟨"r", .Full ⟨none, 7, 3, true⟩⟩, ⟨"b", .Full ⟨some 1, 7, 1, true⟩⟩], 2⟩ 2 "b"
      ⟨some 1, 7, 1, true⟩ (by decide) (by decide) (by decide)).2 (by decide)
    exact h

/-- Slab::remove with no interference always succeeds on a full slot: the
slot becomes Empty(old head) with a cleared buffer, the head becomes idx,
and the span data is extracted. -/
theorem removeLoop_full {μ : Type} (st : Store μ) (idx : Nat) (flds : String)
    (dataA : Data μ) (hs : st.slab[idx]? = some ⟨flds, .Full dataA⟩) :
    Store.removeLoop idx [] st = (⟨st.slab.set idx ⟨"", .Empty st.next⟩, idx⟩, some dataA) := by
  have hlt : idx < st.slab.length := (List.getElem?_eq_some.mp hs).1
  have hset : (st.slab.set idx ⟨flds, .Empty st.next⟩)[idx]? = some ⟨flds, .Empty st.next⟩ :=
    List.getElem?_set_self (by simpa using hlt)
  simp only [Store.removeLoop, Store.removeBegin, hs, Store.setSlot]
  simp only [Store.clearFields, hset, Store.setSlot, List.set_set]

/-! ## Claim C10: Store::push clones a reference on every call -/

/-- C10: pushing a span on a thread increments its reference count by one on
every call, for every state of the thread stack — in particular also when
the identifier is already on the stack and the new entry is marked
duplicate. -/
theorem push_always_clones_ref {μ : Type} (st : Store μ) (stk : SpanStack) (id : Nat)
    (flds : String) (data : Data μ)
    (hs : st.slab[id_to_idx id]? = some ⟨flds, .Full data⟩)
    (h2 : data.ref_count + 1 < USIZE) :
    st.push stk id = some
      (st.setSlot (id_to_idx id) ⟨flds, .Full { data with ref_count := data.ref_count + 1 }⟩,
       ⟨⟨id, stk.ids.contains id⟩ :: stk.stack,
        if stk.ids.contains id then stk.ids else id :: stk.ids⟩) := by
  simp [Store.push, Store.clone_span, Slot.clone_ref, hs, SpanStack.push,
    Nat.mod_eq_of_lt h2]

/-- Witness for C10: the id 1 is already on the stack (a reentrant entry);
the entry is pushed marked duplicate and the count still goes from 2 to 3. -/
theorem push_always_clones_ref_witness :
    Store.push ⟨[⟨"a", .Full ⟨none, (0 : Nat), 2, true⟩⟩], 1⟩ ⟨[⟨1, false⟩], [1]⟩ 1 =
      some (⟨[⟨"a", .Full ⟨none, 0, 3, true⟩⟩], 1⟩, ⟨[⟨1, true⟩, ⟨1, false⟩], [1]⟩) := by
  have h := push_always_clones_ref ⟨[⟨"a", .Full ⟨none, (0 : Nat), 2, true⟩⟩], 1⟩
    ⟨[⟨1, false⟩], [1]⟩ 1 "a" ⟨none, 0, 2, true⟩ (by decide) (by decide)
  exact h.trans (by decide)

/-! ## Claim C4: what a matched pop releases -/

/-- C4 as stated is false on the code: popping a duplicate entry also
releases a reference. Concretely, with the stack holding a genuine entry of
id 1 below a duplicate entry of id 1 and the span's count at 2, popping the
duplicate drops the count to 1 (the claim predicts it stays 2). -/
theorem pop_duplicate_releases_reference :
    Store.pop ⟨[⟨"a", .Full ⟨none, (0 : Nat), 2, true⟩⟩], 1⟩ ⟨[⟨1, true⟩, ⟨1, false⟩], [1]⟩ 1 =
      (⟨[⟨"a", .Full ⟨none, 0, 1, true⟩⟩], 1⟩, ⟨[⟨1, false⟩], [1]⟩, false) := by
  decide

/-- C4 amended: a matched pop (expected id equals the top entry) releases
exactly one reference whether the popped entry is genuine or duplicate —
decrementing the count, or removing the slot when the count reaches zero —
and a mismatched pop (or a pop of an empty stack) releases nothing and
leaves the store and the stack unchanged. -/
theorem pop_release_spec :
    (∀ (μ : Type) (st : Store μ) (stk : SpanStack) (id : Nat) (dup : Bool)
       (rest : List ContextId) (flds : String) (data : Data μ),
      stk.stack = ⟨id, dup⟩ :: rest →
      st.slab[id_to_idx id]? = some ⟨flds, .Full data⟩ →
      2 ≤ data.ref_count → data.ref_count < USIZE →
      Store.pop st stk id =
        (st.setSlot (id_to_idx id) ⟨flds, .Full { data with ref_count := data.ref_count - 1 }⟩,
         ⟨rest, if dup then stk.ids else stk.ids.erase id⟩, false))
    ∧ (∀ (μ : Type) (st : Store μ) (stk : SpanStack) (id : Nat) (dup : Bool)
         (rest : List ContextId) (flds : String) (data : Data μ),
        stk.stack = ⟨id, dup⟩ :: rest →
        st.slab[id_to_idx id]? = some ⟨flds, .Full data⟩ →
        data.ref_count = 1 →
        Store.pop st stk id =
          (⟨st.slab.set (id_to_idx id) ⟨"", .Empty st.next⟩, id_to_idx id⟩,
           ⟨rest, if dup then stk.ids else stk.ids.erase id⟩, true))
    ∧ (∀ (μ : Type) (st : Store μ) (stk : SpanStack) (expected : Nat),
        stk.stack.head?.map ContextId.id ≠ some expected →
        Store.pop st stk expected = (st, stk, false)) := by
  refine ⟨?_, ?_, ?_⟩
  · intro μ st stk id dup rest flds data hstk hs h1 h2
    have hd := drop_span_full_dec st id flds data hs h1 h2
    simp [Store.pop, SpanStack.pop, hstk, hd]
  · intro μ st stk id dup rest flds data hstk hs h1
    have hd := drop_span_full_last st id flds data hs h1
    simp [Store.pop, SpanStack.pop, hstk, hd]
  · intro μ st stk expected hne
    unfold Store.pop SpanStack.pop
    cases hstk : stk.stack with
    | nil => simp
    | cons c rest =>
      rw [hstk] at hne
      have : ¬ c.id = expected := by
        intro h
        exact hne (by simp [h])
      simp [this]

/-- Witness for the amended C4: popping a genuine entry with count 2 on the
concrete store (the genuine counterpart of the counterexample) releases one
reference; a mismatched pop changes nothing. -/
theorem pop_release_spec_witness :
    Store.pop ⟨[⟨"a", .Full ⟨none, (0 : Nat), 2, true⟩⟩], 1⟩ ⟨[⟨1, false⟩], [1]⟩ 1 =
      (⟨[⟨"a", .Full ⟨none, 0, 1, true⟩⟩], 1⟩, ⟨[], []⟩, false)
    ∧ Store.pop ⟨[⟨"a", .Full ⟨none, (0 : Nat), 2, true⟩⟩], 1⟩ ⟨[⟨1, false⟩], [1]⟩ 9 =
      (⟨[⟨"a", .Full ⟨none, 0, 2, true⟩⟩], 1⟩, ⟨[⟨1, false⟩], [1]⟩, false) := by
  constructor
  · have h := pop_release_spec.1 Nat ⟨[⟨"a", .Full ⟨none, 0, 2, true⟩⟩], 1⟩
      ⟨[⟨1, false⟩], [1]⟩ 1 false [] "a" ⟨none, 0, 2, true⟩ rfl (by decide) (by decide) (by decide)
    exact h.trans (by decide)
  · exact pop_release_spec.2.2 Nat _ _ 9 (by decide)

/-! ## Claim C8: the has_non_empty_fields flag -/

/-- C8 as stated is false on the code: allocate a span with no fields (the
flag is set to false because the buffer is empty), then record a non-empty
field set. The buffer is now non-empty but the flag stays false — record
never sets the flag back to true (the assignment in the source only ever
clears it, and only when the buffer is empty). -/
theorem record_nonempty_keeps_flag_false :
    ((Slot.new ⟨none, (0 : Nat), 1, true⟩ "").record "x=1").fields = "x=1"
    ∧ ((Slot.new ⟨none, (0 : Nat), 1, true⟩ "").record "x=1").hasNonEmptyFields = false := by
  constructor
  · rfl
  · rfl

/-- C8 amended: immediately after allocation (new or fill, which start from
the freshly created Data whose flag is true) the flag is true exactly when
the buffer is non-empty; record only preserves the forward direction — a
true flag still implies a non-empty buffer, but a record that first makes an
initially-empty buffer non-empty leaves the flag false. -/
theorem has_non_empty_fields_spec :
    (∀ (μ : Type) (d : Data μ) (s : String), d.is_empty = true →
      (Slot.new d s).hasNonEmptyFields = !(Slot.new d s).fields.isEmpty
      ∧ (Slot.new d s).fields = s)
    ∧ (∀ (μ : Type) (flds : String) (nxt : Nat) (d : Data μ) (s : String)
         (sl : Slot μ) (n : Nat), d.is_empty = true →
        Slot.fill ⟨flds, .Empty nxt⟩ d s = some (sl, n) →
        sl.hasNonEmptyFields = !sl.fields.isEmpty ∧ sl.fields = flds ++ s ∧ n = nxt)
    ∧ (∀ (μ : Type) (sl : Slot μ) (s : String),
        (sl.record s).hasNonEmptyFields = true → ((sl.record s).fields.isEmpty) = false) := by
  refine ⟨?_, ?_, ?_⟩
  · intro μ d s hd
    unfold Slot.new Slot.hasNonEmptyFields
    cases he : s.isEmpty <;> simp [he, hd]
  · intro μ flds nxt d s sl n hd hf
    have hfill : Slot.fill (⟨flds, .Empty nxt⟩ : Slot μ) d s =
        some (⟨flds ++ s,
               .Full (if (flds ++ s).isEmpty then { d with is_empty := false } else d)⟩, nxt) := rfl
    rw [hfill] at hf
    simp only [Option.some_inj, Prod.mk.injEq] at hf
    obtain ⟨hsl, hn⟩ := hf
    subst hsl
    cases he : (flds ++ s).isEmpty <;> simp [Slot.hasNonEmptyFields, he, hd, hn]
  · intro μ sl s
    unfold Slot.record Slot.hasNonEmptyFields
    cases hsp : sl.span with
    | Empty nxt => simp [hsp]
    | Full d =>
      cases he : (sl.fields ++ s).isEmpty <;> simp [he]

/-- Witness for the amended C8 on concrete slots: a span allocated with
fields has the flag true; one allocated without has it false; and a true
flag after record comes with a non-empty buffer. -/
theorem has_non_empty_fields_spec_witness :
    (Slot.new ⟨none, (0 : Nat), 1, true⟩ "k=1").hasNonEmptyFields = true
    ∧ (Slot.new ⟨none, (0 : Nat), 1, true⟩ "").hasNonEmptyFields = false
    ∧ (((Slot.new ⟨none, (0 : Nat), 1, true⟩ "k=1").record "j=2").fields.isEmpty) = false := by
  refine ⟨?_, ?_, has_non_empty_fields_spec.2.2 Nat _ "j=2" (by decide)⟩
  · have h := (has_non_empty_fields_spec.1 Nat ⟨none, 0, 1, true⟩ "k=1" rfl).1
    exact h.trans (by decide)
  · have h := (has_non_empty_fields_spec.1 Nat ⟨none, 0, 1, true⟩ "" rfl).1
    exact h.trans (by decide)

/-! ## Claim C9: recycling clears the field buffer -/

/-- C9: removing span A clears its slot's field buffer and links the slot as
the free-list head, so a subsequent allocation that reuses the slot (the
fast path pops exactly this index) produces a span whose buffer holds only
the newly formatted fields, with no residue of A's fields. -/
theorem recycled_slot_no_residue {μ : Type} (st : Store μ) (idx : Nat) (flds : String)
    (dataA : Data μ) (hs : st.slab[idx]? = some ⟨flds, .Full dataA⟩) :
    (Store.removeLoop idx [] st).2 = some dataA
    ∧ (Store.removeLoop idx [] st).1.slab[idx]? = some ⟨"", .Empty st.next⟩
    ∧ (Store.removeLoop idx [] st).1.next = idx
    ∧ (∀ (dataB : Data μ) (s : String) (r : Store μ × Nat),
        Store.newSpanFast (Store.removeLoop idx [] st).1 dataB s = some r →
        r.2 = idx_to_id idx ∧ (r.1.slab[idx]?).map Slot.fields = some s) := by
  have hlt : idx < st.slab.length := (List.getElem?_eq_some.mp hs).1
  have hrem := removeLoop_full st idx flds dataA hs
  have hget : (st.slab.set idx ⟨"", .Empty st.next⟩)[idx]? = some ⟨"", .Empty st.next⟩ :=
    List.getElem?_set_self (by simpa using hlt)
  refine ⟨by rw [hrem], by rw [hrem]; exact hget, by rw [hrem], ?_⟩
  intro dataB s r hr
  rw [hrem] at hr
  have hemp : ("" ++ s : String) = s := by
    cases s
    rfl
  have hfill : Slot.fill (⟨"", .Empty st.next⟩ : Slot μ) dataB s =
      some (⟨s, .Full (if s.isEmpty then { dataB with is_empty := false } else dataB)⟩,
            st.next) := by
    unfold Slot.fill
    simp only [hemp]
  have hns : Store.newSpanFast (⟨st.slab.set idx ⟨"", .Empty st.next⟩, idx⟩ : Store μ) dataB s =
      some (⟨(st.slab.set idx ⟨"", .Empty st.next⟩).set idx
              ⟨s, .Full (if s.isEmpty then { dataB with is_empty := false } else dataB)⟩,
             st.next⟩, idx_to_id idx) := by
    unfold Store.newSpanFast
    simp only [List.length_set, hlt, if_true, hget, hfill]
  rw [hns] at hr
  simp only [Option.some_inj] at hr
  subst hr
  refine ⟨rfl, ?_⟩
  have hone : (st.slab.set idx
      ⟨s, .Full (if s.isEmpty then { dataB with is_empty := false } else dataB)⟩)[idx]? =
      some ⟨s, .Full (if s.isEmpty then { dataB with is_empty := false } else dataB)⟩ :=
    List.getElem?_set_self (by simpa using hlt)
  simp [List.set_set, hone]

/-- Witness for C9: removing the only span and allocating a new one in its
slot leaves exactly the new fields in the buffer. -/
theorem recycled_slot_no_residue_witness :
    (Store.removeLoop 0 [] (⟨[⟨"old", .Full ⟨none, (0 : Nat), 0, true⟩⟩], 1⟩ : Store Nat)).1.slab[0]? =
      some ⟨"", .Empty 1⟩
    ∧ (∀ r, Store.newSpanFast
        (Store.removeLoop 0 [] (⟨[⟨"old", .Full ⟨none, (0 : Nat), 0, true⟩⟩], 1⟩ : Store Nat)).1
        ⟨none, 0, 1, true⟩ "new" = some r →
        (r.1.slab[0]?).map Slot.fields = some "new") := by
  have h := recycled_slot_no_residue (⟨[⟨"old", .Full ⟨none, (0 : Nat), 0, true⟩⟩], 1⟩ : Store Nat)
    0 "old" ⟨none, 0, 0, true⟩ (by decide)
  exact ⟨h.2.1, fun r hr => (h.2.2.2 ⟨none, 0, 1, true⟩ "new" r hr).2⟩

/-! ## Claim C3: parent release on physical removal -/

/-- drop_span_via on a full slot with count 1: the slot is removed and the
extracted Data is finalized (its Drop impl runs) on the post-removal store. -/
theorem drop_span_via_last {μ : Type} (backend : Nat → Store μ → Store μ × Bool)
    (st : Store μ) (id : Nat) (flds : String) (data : Data μ)
    (hs : st.slab[id_to_idx id]? = some ⟨flds, .Full data⟩)
    (h1 : data.ref_count = 1) :
    Store.drop_span_via backend st id =
      (Data.finalize { data with ref_count := (data.ref_count + (USIZE - 1)) % USIZE } backend
        ⟨st.slab.set (id_to_idx id) ⟨"", .Empty st.next⟩, id_to_idx id⟩, true) := by
  have hb : (data.ref_count == 1) = true := by simp [h1]
  have hlt : id_to_idx id < st.slab.length := (List.getElem?_eq_some.mp hs).1
  have hs1 : (st.slab.set (id_to_idx id)
      ⟨flds, .Full { data with ref_count := (data.ref_count + (USIZE - 1)) % USIZE }⟩)[
      id_to_idx id]? =
      some ⟨flds, .Full { data with ref_count := (data.ref_count + (USIZE - 1)) % USIZE }⟩ :=
    List.getElem?_set_self (by simpa using hlt)
  have hrem := removeLoop_full
    (⟨st.slab.set (id_to_idx id)
        ⟨flds, .Full { data with ref_count := (data.ref_count + (USIZE - 1)) % USIZE }⟩,
      st.next⟩ : Store μ)
    (id_to_idx id) flds _ hs1
  simp only [List.set_set] at hrem
  simp only [Store.drop_span_via, hs, Slot.drop_ref, hb, if_true, Store.setSlot]
  rw [hrem]

/-- C3: when a span's record is physically destroyed and it has a parent,
exactly one reference to the parent is released, and the release goes
through the backend hook handed in by the process-wide dispatcher (the final
store is exactly one application of the backend to the parent id on the
post-removal store) — never a direct Store call; with no parent the backend
is not applied at all. Wiring the backend to the subscriber's try_close,
which is Store::drop_span (lib.rs), the cascade removes a parent whose own
count thereby reaches zero. -/
theorem drop_finalize_releases_parent :
    (∀ (μ : Type) (backend : Nat → Store μ → Store μ × Bool) (st : Store μ)
       (id : Nat) (flds : String) (data : Data μ) (p : Nat),
      st.slab[id_to_idx id]? = some ⟨flds, .Full data⟩ →
      data.ref_count = 1 → data.parent = some p →
      Store.drop_span_via backend st id =
        ((backend p ⟨st.slab.set (id_to_idx id) ⟨"", .Empty st.next⟩, id_to_idx id⟩).1, true))
    ∧ (∀ (μ : Type) (backend : Nat → Store μ → Store μ × Bool) (st : Store μ)
         (id : Nat) (flds : String) (data : Data μ),
        st.slab[id_to_idx id]? = some ⟨flds, .Full data⟩ →
        data.ref_count = 1 → data.parent = none →
        Store.drop_span_via backend st id =
          (⟨st.slab.set (id_to_idx id) ⟨"", .Empty st.next⟩, id_to_idx id⟩, true))
    ∧ (∀ (μ : Type) (st : Store μ) (id : Nat) (flds pflds : String)
         (data pdata : Data μ) (p : Nat),
        st.slab[id_to_idx id]? = some ⟨flds, .Full data⟩ →
        data.ref_count = 1 → data.parent = some p →
        st.slab[id_to_idx p]? = some ⟨pflds, .Full pdata⟩ →
        pdata.ref_count = 1 → id_to_idx p ≠ id_to_idx id →
        Store.drop_span_via (fun q s => s.drop_span q) st id =
          (⟨(st.slab.set (id_to_idx id) ⟨"", .Empty st.next⟩).set (id_to_idx p)
              ⟨"", .Empty (id_to_idx id)⟩, id_to_idx p⟩, true)) := by
  refine ⟨?_, ?_, ?_⟩
  · intro μ backend st id flds data p hs h1 hp
    rw [drop_span_via_last backend st id flds data hs h1]
    simp [Data.finalize, hp]
  · intro μ backend st id flds data hs h1 hp
    rw [drop_span_via_last backend st id flds data hs h1]
    simp [Data.finalize, hp]
  · intro μ st id flds pflds data pdata p hs h1 hp hps hp1 hne
    rw [drop_span_via_last (fun q s => s.drop_span q) st id flds data hs h1]
    simp only [Data.finalize, hp]
    have hps2 : ((⟨st.slab.set (id_to_idx id) ⟨"", .Empty st.next⟩,
        id_to_idx id⟩ : Store μ)).slab[id_to_idx p]? = some ⟨pflds, .Full pdata⟩ := by
      simpa [List.getElem?_set_ne (Ne.symm hne)] using hps
    have hd := drop_span_full_last
      (⟨st.slab.set (id_to_idx id) ⟨"", .Empty st.next⟩, id_to_idx id⟩ : Store μ)
      p pflds pdata hps2 hp1
    rw [hd]

/-- Witness for C3: span 2 (count 1, parent 1) and its root parent span 1
(count 1); dropping span 2 through the dispatcher-wired backend removes both
slots and leaves the free list headed at the parent's index. -/
theorem drop_finalize_releases_parent_witness :
    Store.drop_span_via (fun q s => Store.drop_span s q)
      (⟨[⟨"r", .Full ⟨none, (0 : Nat), 1, true⟩⟩, ⟨"c", .Full ⟨some 1, 0, 1, true⟩⟩], 2⟩ : Store Nat)
      2 =
      (⟨[⟨"", .Empty 1⟩, ⟨"", .Empty 2⟩], 0⟩, true) := by
  have h := drop_finalize_releases_parent.2.2 Nat
    (⟨[⟨"r", .Full ⟨none, 0, 1, true⟩⟩, ⟨"c", .Full ⟨some 1, 0, 1, true⟩⟩], 2⟩ : Store Nat)
    2 "c" "r" ⟨some 1, 0, 1, true⟩ ⟨none, 0, 1, true⟩ 1
    (by decide) (by decide) (by decide) (by decide) (by decide) (by decide)
  exact h.trans (by decide)

/-! ## Claim C1: remove must retry until the slot is linked into the free list -/

/-- C1 fails on the code: a concrete two-thread interleaving in which
remove(idx 0) loads head 1 and replaces the slot with Empty(1), and before
its CAS another thread's new_span fast path pops free slot 1 (CAS of the
head from 1 to 3). remove's CAS then fails; its second iteration finds the
slot it itself emptied, takes the already-emptied early-return arm, and
gives up (returns none) instead of retrying the push. The slot stays
Empty(1) with its index unreachable from the free-list head (head 3 equals
the slab length, an empty free list), i.e. the slot is lost — and its field
buffer is never cleared either. -/
theorem remove_cas_failure_loses_slot :
    (Store.removeLoop 0
        [fun s => match Store.newSpanFast s ⟨none, (9 : Nat), 1, true⟩ "b" with
                  | some r => r.1
                  | none => s]
        (⟨[⟨"a", .Full ⟨none, (0 : Nat), 0, true⟩⟩, ⟨"", .Empty 3⟩,
           ⟨"c", .Full ⟨none, 0, 1, true⟩⟩], 1⟩ : Store Nat)).2 = none
    ∧ (Store.removeLoop 0
        [fun s => match Store.newSpanFast s ⟨none, (9 : Nat), 1, true⟩ "b" with
                  | some r => r.1
                  | none => s]
        (⟨[⟨"a", .Full ⟨none, (0 : Nat), 0, true⟩⟩, ⟨"", .Empty 3⟩,
           ⟨"c", .Full ⟨none, 0, 1, true⟩⟩], 1⟩ : Store Nat)).1.slab[0]? =
        some ⟨"a", .Empty 1⟩
    ∧ (Store.removeLoop 0
        [fun s => match Store.newSpanFast s ⟨none, (9 : Nat), 1, true⟩ "b" with
                  | some r => r.1
                  | none => s]
        (⟨[⟨"a", .Full ⟨none, (0 : Nat), 0, true⟩⟩, ⟨"", .Empty 3⟩,
           ⟨"c", .Full ⟨none, 0, 1, true⟩⟩], 1⟩ : Store Nat)).1.next = 3
    ∧ (Store.removeLoop 0
        [fun s => match Store.newSpanFast s ⟨none, (9 : Nat), 1, true⟩ "b" with
                  | some r => r.1
                  | none => s]
        (⟨[⟨"a", .Full ⟨none, (0 : Nat), 0, true⟩⟩, ⟨"", .Empty 3⟩,
           ⟨"c", .Full ⟨none, 0, 1, true⟩⟩], 1⟩ : Store Nat)).1.freeIndices = [] := by
  refine ⟨rfl, rfl, rfl, rfl⟩

/-! ## Claim C6: visit_spans order, helper lemmas -/

/-- A successful read_slot is a successful slab lookup. -/
theorem read_slot_some {μ : Type} (st : Store μ) (j : Nat) (sp : Slot μ)
    (h : st.read_slot j = some sp) : st.slab[j]? = some sp := by
  unfold Store.read_slot at h
  cases hj : st.slab[j]? with
  | none => rw [hj] at h; cases h
  | some slot =>
    rw [hj] at h
    cases hsp : slot.span with
    | Empty n => simp only [hsp] at h; exact absurd h (by simp)
    | Full d => simp only [hsp] at h; exact h

/-- A resolvable id is positive and within one past the slab length. -/
theorem get_some_bound {μ : Type} (st : Store μ) (id : Nat) (sp : Slot μ)
    (hlen : st.slab.length + 1 < USIZE) (h : st.get id = some sp) :
    1 ≤ id ∧ id < st.slab.length + 1 := by
  have hj := read_slot_some st (id_to_idx id) sp h
  have hlt : id_to_idx id < st.slab.length := (List.getElem?_eq_some.mp hj).1
  unfold id_to_idx at hlt
  rw [USIZE_eq] at hlen
  by_cases h0 : id = 0
  · rw [if_pos h0] at hlt
    rw [USIZE_eq] at hlt
    omega
  · rw [if_neg h0] at hlt
    omega

/-- The bounded resolvability check covers every live span. -/
theorem resolv_of_OK {μ : Type} (st : Store μ) (i p : Nat) (sp : Slot μ)
    (hlen : st.slab.length + 1 < USIZE)
    (hres : st.resolvableOK = true)
    (hi : st.get i = some sp) (hp : sp.parentId = some p) :
    (st.get p).isSome := by
  have hb := get_some_bound st i sp hlen hi
  have hc := List.all_eq_true.mp hres i (List.mem_range.mpr (by omega))
  unfold Store.resolvCheck at hc
  simp only [hi, hp] at hc
  exact hc

/-- The bounded rank check covers every live span: rank strictly decreases
along parent links. -/
theorem rank_of_OK {μ : Type} (st : Store μ) (rank : Nat → Nat) (i p : Nat) (sp : Slot μ)
    (hlen : st.slab.length + 1 < USIZE)
    (hrk : st.rankOK rank = true)
    (hi : st.get i = some sp) (hp : sp.parentId = some p) :
    rank p < rank i := by
  have hb := get_some_bound st i sp hlen hi
  have hc := List.all_eq_true.mp hrk i (List.mem_range.mpr (by omega))
  unfold Store.rankCheck at hc
  simp only [hi, hp] at hc
  exact of_decide_eq_true hc

/-! Equation lemmas for chainList, withParent and visitFold, one per branch
of the source's with_parent. -/

theorem chainList_zero {μ : Type} (st : Store μ) (myId : Nat) (lastId : Option Nat) :
    st.chainList 0 myId lastId = [myId] := rfl

theorem chainList_succ_none {μ : Type} (st : Store μ) {n myId : Nat} {lastId : Option Nat}
    (hg : st.get myId = none) : st.chainList (n + 1) myId lastId = [myId] := by
  unfold Store.chainList
  simp only [hg]

theorem chainList_succ_noparent {μ : Type} (st : Store μ) {n myId : Nat} {lastId : Option Nat}
    {sp : Slot μ} (hg : st.get myId = some sp) (hp : sp.parentId = none) :
    st.chainList (n + 1) myId lastId = [myId] := by
  unfold Store.chainList
  simp only [hg, hp]

theorem chainList_succ_stop {μ : Type} (st : Store μ) {n myId p : Nat} {lastId : Option Nat}
    {sp : Slot μ} (hg : st.get myId = some sp) (hp : sp.parentId = some p)
    (hng : ¬ some p ≠ lastId) : st.chainList (n + 1) myId lastId = [myId] := by
  unfold Store.chainList
  simp only [hg, hp, if_neg hng]

theorem chainList_succ_orphan {μ : Type} (st : Store μ) {n myId p : Nat} {lastId : Option Nat}
    {sp : Slot μ} (hg : st.get myId = some sp) (hp : sp.parentId = some p)
    (hguard : some p ≠ lastId) (hq : st.get p = none) :
    st.chainList (n + 1) myId lastId = [myId] := by
  unfold Store.chainList
  simp only [hg, hp, if_pos hguard, hq]

theorem chainList_succ_rec {μ : Type} (st : Store μ) {n myId p : Nat} {lastId : Option Nat}
    {sp psp : Slot μ} (hg : st.get myId = some sp) (hp : sp.parentId = some p)
    (hguard : some p ≠ lastId) (hq : st.get p = some psp) :
    st.chainList (n + 1) myId lastId = st.chainList n p (some myId) ++ [myId] := by
  conv_lhs => unfold Store.chainList
  simp only [hg, hp, if_pos hguard, hq]

theorem withParent_zero {μ σ ε : Type} (st : Store μ) (f : Nat → Slot μ → σ → Except ε σ)
    (myId : Nat) (lastId : Option Nat) (sp : Slot μ) (acc : σ) :
    st.withParent f 0 myId lastId sp acc = f myId sp acc := rfl

theorem withParent_succ_noparent {μ σ ε : Type} (st : Store μ)
    (f : Nat → Slot μ → σ → Except ε σ) {n myId : Nat} {lastId : Option Nat}
    {sp : Slot μ} (acc : σ) (hp : sp.parentId = none) :
    st.withParent f (n + 1) myId lastId sp acc = f myId sp acc := by
  unfold Store.withParent
  simp only [hp]

theorem withParent_succ_stop {μ σ ε : Type} (st : Store μ)
    (f : Nat → Slot μ → σ → Except ε σ) {n myId p : Nat} {lastId : Option Nat}
    {sp : Slot μ} (acc : σ) (hp : sp.parentId = some p) (hng : ¬ some p ≠ lastId) :
    st.withParent f (n + 1) myId lastId sp acc = f myId sp acc := by
  unfold Store.withParent
  simp only [hp, if_neg hng]

theorem withParent_succ_orphan {μ σ ε : Type} (st : Store μ)
    (f : Nat → Slot μ → σ → Except ε σ) {n myId p : Nat} {lastId : Option Nat}
    {sp : Slot μ} (acc : σ) (hp : sp.parentId = some p) (hguard : some p ≠ lastId)
    (hq : st.get p = none) :
    st.withParent f (n + 1) myId lastId sp acc = f myId sp acc := by
  unfold Store.withParent
  simp only [hp, if_pos hguard, hq]

theorem withParent_succ_rec {μ σ ε : Type} (st : Store μ)
    (f : Nat → Slot μ → σ → Except ε σ) {n myId p : Nat} {lastId : Option Nat}
    {sp psp : Slot μ} (acc : σ) (hp : sp.parentId = some p) (hguard : some p ≠ lastId)
    (hq : st.get p = some psp) :
    st.withParent f (n + 1) myId lastId sp acc =
      match st.withParent f n p (some myId) psp acc with
      | .ok a => f myId sp a
      | .error e => .error e := by
  conv_lhs => unfold Store.withParent
  simp only [hp, if_pos hguard, hq]
  cases st.withParent f n p (some myId) psp acc <;> rfl

theorem visitFold_cons_none {μ σ ε : Type} (st : Store μ)
    (f : Nat → Slot μ → σ → Except ε σ) {i : Nat} (rest : List Nat) (acc : σ)
    (hg : st.get i = none) :
    st.visitFold f (i :: rest) acc = st.visitFold f rest acc := by
  conv_lhs => unfold Store.visitFold
  simp only [hg]

theorem visitFold_cons_some {μ σ ε : Type} (st : Store μ)
    (f : Nat → Slot μ → σ → Except ε σ) {i : Nat} {sp : Slot μ} (rest : List Nat) (acc : σ)
    (hg : st.get i = some sp) :
    st.visitFold f (i :: rest) acc =
      match f i sp acc with
      | .ok a => st.visitFold f rest a
      | .error e => .error e := by
  conv_lhs => unfold Store.visitFold
  simp only [hg]
  cases f i sp acc <;> rfl

/-- The chain always ends with the span it was started from. -/
theorem chainList_getLast {μ : Type} (st : Store μ) :
    ∀ (fuel myId : Nat) (lastId : Option Nat),
      (st.chainList fuel myId lastId).getLast? = some myId := by
  intro fuel
  induction fuel with
  | zero => intro myId lastId; rfl
  | succ n ih =>
    intro myId lastId
    cases hg : st.get myId with
    | none => rw [chainList_succ_none st hg]; rfl
    | some sp =>
      cases hp : sp.parentId with
      | none => rw [chainList_succ_noparent st hg hp]; rfl
      | some p =>
        by_cases hguard : some p ≠ lastId
        · cases hq : st.get p with
          | none => rw [chainList_succ_orphan st hg hp hguard hq]; rfl
          | some psp => rw [chainList_succ_rec st hg hp hguard hq, List.getLast?_concat]
        · rw [chainList_succ_stop st hg hp hguard]; rfl

/-- Folding the visitor over a single resolvable id is one visitor call. -/
theorem visitFold_single {μ σ ε : Type} (st : Store μ) (f : Nat → Slot μ → σ → Except ε σ)
    (myId : Nat) (sp : Slot μ) (acc : σ) (h : st.get myId = some sp) :
    st.visitFold f [myId] acc = f myId sp acc := by
  rw [visitFold_cons_some st f [] acc h]
  cases f myId sp acc <;> rfl

/-- The visitor fold splits across list append, short-circuiting errors. -/
theorem visitFold_append {μ σ ε : Type} (st : Store μ) (f : Nat → Slot μ → σ → Except ε σ) :
    ∀ (l1 l2 : List Nat) (acc : σ),
      st.visitFold f (l1 ++ l2) acc =
        match st.visitFold f l1 acc with
        | .ok a => st.visitFold f l2 a
        | .error e => .error e := by
  intro l1
  induction l1 with
  | nil => intro l2 acc; rfl
  | cons i rest ih =>
    intro l2 acc
    rw [List.cons_append]
    cases hg : st.get i with
    | none => rw [visitFold_cons_none st f (rest ++ l2) acc hg,
                  visitFold_cons_none st f rest acc hg]
              exact ih l2 acc
    | some sp =>
      rw [visitFold_cons_some st f (rest ++ l2) acc hg,
          visitFold_cons_some st f rest acc hg]
      cases f i sp acc with
      | ok a => exact ih l2 a
      | error e => rfl

/-- with_parent visits exactly the parent chain, in chain order, with the
visitor's error short-circuiting. -/
theorem withParent_eq_visitFold {μ σ ε : Type} (st : Store μ)
    (f : Nat → Slot μ → σ → Except ε σ) :
    ∀ (fuel myId : Nat) (lastId : Option Nat) (sp : Slot μ) (acc : σ),
      st.get myId = some sp →
      st.withParent f fuel myId lastId sp acc =
        st.visitFold f (st.chainList fuel myId lastId) acc := by
  intro fuel
  induction fuel with
  | zero =>
    intro myId lastId sp acc h
    rw [chainList_zero, visitFold_single st f myId sp acc h]
    rfl
  | succ n ih =>
    intro myId lastId sp acc h
    cases hp : sp.parentId with
    | none =>
      rw [withParent_succ_noparent st f acc hp, chainList_succ_noparent st h hp,
          visitFold_single st f myId sp acc h]
    | some p =>
      by_cases hguard : some p ≠ lastId
      · cases hq : st.get p with
        | none =>
          rw [withParent_succ_orphan st f acc hp hguard hq,
              chainList_succ_orphan st h hp hguard hq,
              visitFold_single st f myId sp acc h]
        | some psp =>
          rw [withParent_succ_rec st f acc hp hguard hq,
              chainList_succ_rec st h hp hguard hq,
              visitFold_append st f (st.chainList n p (some myId)) [myId] acc,
              ← ih p (some myId) psp acc hq]
          cases st.withParent f n p (some myId) psp acc with
          | ok a =>
            show f myId sp a = st.visitFold f [myId] a
            rw [visitFold_single st f myId sp a h]
          | error e => rfl
      · rw [withParent_succ_stop st f acc hp hguard, chainList_succ_stop st h hp hguard,
            visitFold_single st f myId sp acc h]

/-- Structure of the chain under acyclicity (a rank decreasing along parent
links): it starts at a root (a span with no parent) and consecutive
elements are linked by parent edges. -/
theorem chainList_struct {μ : Type} (st : Store μ) (rank : Nat → Nat)
    (hlen : st.slab.length + 1 < USIZE)
    (hres : st.resolvableOK = true) (hrk : st.rankOK rank = true) :
    ∀ (fuel myId : Nat) (lastId : Option Nat),
      (st.get myId).isSome → rank myId ≤ fuel →
      (∀ c, lastId = some c → rank myId < rank c) →
      (∃ r rest, st.chainList fuel myId lastId = r :: rest ∧ st.parentOf r = none)
      ∧ List.Chain' (fun a b => st.parentOf b = some a) (st.chainList fuel myId lastId) := by
  intro fuel
  induction fuel with
  | zero =>
    intro myId lastId hg hf _
    obtain ⟨sp, hsp⟩ := Option.isSome_iff_exists.mp hg
    have hroot : st.parentOf myId = none := by
      cases hp : sp.parentId with
      | none => simp [Store.parentOf, hsp, hp]
      | some p =>
        exfalso
        have := rank_of_OK st rank myId p sp hlen hrk hsp hp
        omega
    exact ⟨⟨myId, [], rfl, hroot⟩, by rw [chainList_zero st myId lastId]; simp⟩
  | succ n ih =>
    intro myId lastId hg hf hinv
    obtain ⟨sp, hsp⟩ := Option.isSome_iff_exists.mp hg
    cases hp : sp.parentId with
    | none =>
      have hroot : st.parentOf myId = none := by simp [Store.parentOf, hsp, hp]
      rw [chainList_succ_noparent st hsp hp]
      exact ⟨⟨myId, [], rfl, hroot⟩, by simp⟩
    | some p =>
      have hpi : rank p < rank myId := rank_of_OK st rank myId p sp hlen hrk hsp hp
      have hguard : some p ≠ lastId := by
        intro he
        have := hinv p he.symm
        omega
      have hgp : (st.get p).isSome := resolv_of_OK st myId p sp hlen hres hsp hp
      obtain ⟨psp, hpsp⟩ := Option.isSome_iff_exists.mp hgp
      rw [chainList_succ_rec st hsp hp hguard hpsp]
      have ihp := ih p (some myId) hgp (by omega)
        (fun c hc => by injection hc with hc; rw [← hc]; exact hpi)
      obtain ⟨⟨r, rest, hchain, hroot⟩, hchain2⟩ := ihp
      constructor
      · exact ⟨r, rest ++ [myId], by rw [hchain]; rfl, hroot⟩
      · rw [List.chain'_append]
        refine ⟨hchain2, by simp, ?_⟩
        intro x hx y hy
        have hlast := chainList_getLast st n p (some myId)
        rw [hlast] at hx
        simp only [Option.mem_def, Option.some_inj] at hx
        simp only [List.head?_cons, Option.mem_def, Option.some_inj] at hy
        rw [← hx, ← hy]
        simp [Store.parentOf, hsp, hp]

/-- C6: when no span is current on the thread (or the current id does not
resolve, a debug_panic compiled out in release) visit_spans calls the
visitor on nothing and returns success; otherwise — given the parent forest
is acyclic (rank decreasing along parent links) and parents resolve —
visit_spans equals folding the visitor over the parent chain in list order
with short-circuit on the first error (visitFold), and that chain begins
with a root (a span with no parent), ends with the current span, and links
consecutive elements by parent edges, i.e. the visitor sees every ancestor
before its descendants. -/
theorem visit_spans_root_to_current_order {μ σ ε : Type}
    (st : Store μ) (stk : SpanStack) (f : Nat → Slot μ → σ → Except ε σ)
    (fuel : Nat) (acc : σ) (rank : Nat → Nat)
    (hlen : st.slab.length + 1 < USIZE)
    (hres : st.resolvableOK = true) (hrk : st.rankOK rank = true) :
    (stk.current = none → st.visitSpans stk f fuel acc = .ok acc)
    ∧ (∀ id, stk.current = some id → st.get id = none →
        st.visitSpans stk f fuel acc = .ok acc)
    ∧ (∀ id sp, stk.current = some id → st.get id = some sp → rank id ≤ fuel →
        st.visitSpans stk f fuel acc = st.visitFold f (st.chainList fuel id none) acc
        ∧ (st.chainList fuel id none).getLast? = some id
        ∧ (∃ r rest, st.chainList fuel id none = r :: rest ∧ st.parentOf r = none)
        ∧ List.Chain' (fun a b => st.parentOf b = some a) (st.chainList fuel id none)) := by
  refine ⟨?_, ?_, ?_⟩
  · intro h
    simp [Store.visitSpans, h]
  · intro id hc hg
    simp [Store.visitSpans, hc, hg]
  · intro id sp hc hg hf
    have h1 : st.visitSpans stk f fuel acc = st.withParent f fuel id none sp acc := by
      simp [Store.visitSpans, hc, hg]
    have h2 := withParent_eq_visitFold st f fuel id none sp acc hg
    have h3 := chainList_struct st rank hlen hres hrk fuel id none
      (by rw [hg]; rfl) hf (fun c hc2 => by cases hc2)
    exact ⟨h1.trans h2, chainList_getLast st fuel id none, h3.1, h3.2⟩

/-- Witness for C6 on a concrete store: span 1 is the root, span 2 its
child and the thread's current span; the visitor that collects ids receives
them in root-to-current order [1, 2]. -/
theorem visit_spans_root_to_current_order_witness :
    Store.visitSpans (⟨[⟨"r", .Full ⟨none, (0 : Nat), 1, true⟩⟩,
        ⟨"c", .Full ⟨some 1, 0, 1, true⟩⟩], 2⟩ : Store Nat)
      ⟨[⟨2, false⟩, ⟨1, false⟩], [2, 1]⟩
      (fun i _ l => Except.ok (l ++ [i]) : Nat → Slot Nat → List Nat → Except Unit (List Nat))
      5 [] = .ok [1, 2] := by
  have h := (visit_spans_root_to_current_order
    (⟨[⟨"r", .Full ⟨none, (0 : Nat), 1, true⟩⟩, ⟨"c", .Full ⟨some 1, 0, 1, true⟩⟩], 2⟩ : Store Nat)
    ⟨[⟨2, false⟩, ⟨1, false⟩], [2, 1]⟩
    (fun i _ l => Except.ok (l ++ [i]) : Nat → Slot Nat → List Nat → Except Unit (List Nat))
    5 [] (fun i => i) (by decide) (by decide) (by decide)).2.2 2
    ⟨"c", .Full ⟨some 1, 0, 1, true⟩⟩ (by decide) (by decide) (by decide)
  rw [h.1]
  rfl

end TracingConcat
